import Mathlib

/-!
Shallow embedding of the text-buffer core of the `rnano` editor
(`src/buffer.rs`), together with theorems settling the specification's
claims about it.

A Rust `String` is modelled as a `List Char` (its Unicode scalar values);
Rust byte indices into the UTF-8 encoding are modelled as `Nat` values
measured by `utf8Len`.  All buffer operations are translated statement by
statement from `src/buffer.rs`; the filesystem write in `save` is modelled
by returning the content that would be written.
-/

namespace RNano

/-- Modelled from `pub enum Direction` in `src/main.rs` (the `direction`
module's enum, re-declared there): the four cursor movement directions
consumed by `move_cursor`. -/
inductive Direction where
  | Up
  | Down
  | Left
  | Right
deriving Repr, DecidableEq

/-- Rust `String::len`: the byte length of a line, i.e. the total UTF-8
size of its characters. -/
def utf8Len (l : List Char) : Nat :=
  l.foldr (fun c n => c.utf8Size + n) 0

/-- Rust `str::is_char_boundary i`: `i` is `0`, the byte length, or the
starting byte offset of one of the line's characters. -/
def isCharBoundary : List Char → Nat → Bool
  | _, 0 => true
  | [], _ + 1 => false
  | c :: cs, i + 1 =>
    if i + 1 < c.utf8Size then false
    else isCharBoundary cs (i + 1 - c.utf8Size)

/-- The `while pos > 0 && !line.is_char_boundary(pos) { pos -= 1 }` loop
shared by `insert_char`, `insert_newline` and `delete_char`. -/
def floorBoundary (l : List Char) : Nat → Nat
  | 0 => 0
  | p + 1 => if isCharBoundary l (p + 1) then p + 1 else floorBoundary l p

/-- The `safe_position` computation of `src/buffer.rs`: clamp a
past-the-end index to the byte length, keep a boundary index, and scan
down to the nearest boundary otherwise. -/
def safePos (l : List Char) (x : Nat) : Nat :=
  if x > utf8Len l then utf8Len l
  else if isCharBoundary l x then x
  else floorBoundary l x

/-- `line.char_indices().skip_while(|&(i, _)| i < pos).next()` with
default `'\0'`: the first character whose starting byte offset is at
least `pos`. -/
def charAtByte : List Char → Nat → Char
  | [], _ => Char.ofNat 0
  | c :: cs, i => if i = 0 then c else charAtByte cs (i - c.utf8Size)

/-- Rust `String::insert(pos, ch)` at a boundary byte offset. -/
def insertAtByte : List Char → Nat → Char → List Char
  | [], _, ch => [ch]
  | c :: cs, i, ch =>
    if i = 0 then ch :: c :: cs else c :: insertAtByte cs (i - c.utf8Size) ch

/-- Rust `str::split_at(pos)` at a boundary byte offset. -/
def splitAtByte : List Char → Nat → List Char × List Char
  | [], _ => ([], [])
  | c :: cs, i =>
    if i = 0 then ([], c :: cs)
    else
      let p := splitAtByte cs (i - c.utf8Size)
      (c :: p.1, p.2)

/-- Worker for `lastStartBefore`: walk the characters with their starting
byte offsets (`s` is the offset of the list head), remembering the last
start offset strictly below `i`. -/
def lastStartBeforeAux : List Char → Nat → Nat → Nat → Nat
  | [], _, _, best => best
  | c :: cs, s, i, best =>
    if s < i then lastStartBeforeAux cs (s + c.utf8Size) i s else best

/-- `line.char_indices().rev().skip_while(|&(i, _)| i >= pos).next()` with
default `0`: the starting byte offset of the last character that begins
strictly before `pos`. -/
def lastStartBefore (l : List Char) (i : Nat) : Nat :=
  lastStartBeforeAux l 0 i 0

/-- Worker for `drainBytes`: `s` is the starting byte offset of the list
head; characters whose start lies in `[a, b)` are removed. -/
def drainBytesAux : List Char → Nat → Nat → Nat → List Char
  | [], _, _, _ => []
  | c :: cs, s, a, b =>
    if a ≤ s ∧ s < b then drainBytesAux cs (s + c.utf8Size) a b
    else c :: drainBytesAux cs (s + c.utf8Size) a b

/-- Rust `String::drain(a..b)` at boundary byte offsets: remove the
characters whose starting byte offset lies in `[a, b)`. -/
def drainBytes (l : List Char) (a b : Nat) : List Char :=
  drainBytesAux l 0 a b

/-- Rust `Vec::insert(i, a)` (every caller passes `i ≤ length`). -/
def listInsertAt (l : List α) (i : Nat) (a : α) : List α :=
  l.take i ++ a :: l.drop i

/-- Rust `self.lines.join("\n")`: lines joined by a single newline, with
no trailing newline. -/
def joinLines : List (List Char) → List Char
  | [] => []
  | [l] => l
  | l :: ls => l ++ '\n' :: joinLines ls

/-- The `TextBuffer` struct of `src/buffer.rs`.  `filename` stands for the
`Option<PathBuf>`; paths are opaque to every modelled operation, so they
are represented by an arbitrary token type (`Nat`). -/
structure TextBuffer where
  lines : List (List Char)
  cursor_x : Nat
  cursor_y : Nat
  cursor_x2 : Option Nat
  cursor_y2 : Option Nat
  offset_x : Nat
  offset_y : Nat
  modified : Bool
  filename : Option Nat
deriving Repr, DecidableEq

/-- `TextBuffer::new`. -/
def TextBuffer.new : TextBuffer where
  lines := [[]]
  cursor_x := 0
  cursor_y := 0
  cursor_x2 := none
  cursor_y2 := none
  offset_x := 0
  offset_y := 0
  modified := false
  filename := none

/-- `TextBuffer::current_line` (`&self.lines[self.cursor_y]`). -/
def TextBuffer.current_line (b : TextBuffer) : List Char :=
  b.lines.getD b.cursor_y []

/-- `TextBuffer::insert_char`. -/
def TextBuffer.insert_char (b : TextBuffer) (ch : Char) : TextBuffer :=
  let cursor_x := b.cursor_x
  let line := b.current_line
  let safe_position := safePos line cursor_x
  if safe_position < utf8Len line ∧ charAtByte line safe_position = ch then
    b
  else
    { b with
      lines := b.lines.set b.cursor_y (insertAtByte line safe_position ch)
      cursor_x := safe_position + ch.utf8Size
      cursor_x2 :=
        match b.cursor_x2 with
        | some x2 =>
          if b.cursor_y2 = some b.cursor_y ∧ cursor_x ≤ x2 then
            some (x2 + ch.utf8Size)
          else some x2
        | none => none
      modified := true }

/-- `TextBuffer::insert_newline`. -/
def TextBuffer.insert_newline (b : TextBuffer) : TextBuffer :=
  let current_line := b.current_line
  let safe_position := safePos current_line b.cursor_x
  let lr := splitAtByte current_line safe_position
  { b with
    lines := listInsertAt (b.lines.set b.cursor_y lr.1) (b.cursor_y + 1) lr.2
    cursor_y := b.cursor_y + 1
    cursor_x := 0
    cursor_y2 :=
      match b.cursor_y2 with
      | some y2 => if y2 > b.cursor_y + 1 - 1 then some (y2 + 1) else some y2
      | none => none
    modified := true }

/-- `TextBuffer::delete_char`. -/
def TextBuffer.delete_char (b : TextBuffer) : TextBuffer :=
  if 0 < b.cursor_x then
    let cursor_x := b.cursor_x
    let line := b.current_line
    let safe_position := safePos line cursor_x
    if 0 < safe_position then
      let char_start := lastStartBefore line safe_position
      { b with
        lines := b.lines.set b.cursor_y (drainBytes line char_start safe_position)
        cursor_x := char_start
        cursor_x2 :=
          match b.cursor_x2 with
          | some x2 =>
            if b.cursor_y2 = some b.cursor_y ∧ cursor_x ≤ x2 then
              some (x2 - (safe_position - char_start))
            else some x2
          | none => none
        modified := true }
    else b
  else if 0 < b.cursor_y then
    let removed := b.lines.getD b.cursor_y []
    let lines1 := b.lines.eraseIdx b.cursor_y
    let new_y := b.cursor_y - 1
    let prev := lines1.getD new_y []
    let current_line_len := utf8Len prev
    let xy2 : Option Nat × Option Nat :=
      match b.cursor_x2, b.cursor_y2 with
      | some x2, some y2 =>
        if y2 > new_y + 1 then (some x2, some (y2 - 1))
        else if y2 = new_y + 1 then (some (current_line_len + x2), some (y2 - 1))
        else (some x2, some y2)
      | ox2, oy2 => (ox2, oy2)
    { b with
      lines := lines1.set new_y (prev ++ removed)
      cursor_x := utf8Len prev
      cursor_y := new_y
      cursor_x2 := xy2.1
      cursor_y2 := xy2.2
      modified := true }
  else b

/-- The cursor-moving first half of `TextBuffer::move_cursor` (everything
before the scroll-offset adjustment). -/
def TextBuffer.move_cursor_core (b : TextBuffer) (direction : Direction)
    (is_secondary : Bool) : TextBuffer :=
  if is_secondary then
    let xy : Nat × Nat :=
      match b.cursor_x2, b.cursor_y2 with
      | some x, some y => (x, y)
      | _, _ => (b.cursor_x, b.cursor_y)
    let b0 :=
      match b.cursor_x2, b.cursor_y2 with
      | some _, some _ => b
      | _, _ => { b with cursor_x2 := some b.cursor_x, cursor_y2 := some b.cursor_y }
    let new_x := xy.1
    let new_y := xy.2
    match direction with
    | Direction.Up =>
      if 0 < new_y then
        { b0 with
          cursor_y2 := some (new_y - 1)
          cursor_x2 := some (min new_x (utf8Len (b0.lines.getD (new_y - 1) []))) }
      else b0
    | Direction.Down =>
      if new_y < b0.lines.length - 1 then
        { b0 with
          cursor_y2 := some (new_y + 1)
          cursor_x2 := some (min new_x (utf8Len (b0.lines.getD (new_y + 1) []))) }
      else b0
    | Direction.Left =>
      if 0 < new_x then { b0 with cursor_x2 := some (new_x - 1) }
      else if 0 < new_y then
        { b0 with
          cursor_y2 := some (new_y - 1)
          cursor_x2 := some (utf8Len (b0.lines.getD (new_y - 1) [])) }
      else b0
    | Direction.Right =>
      if new_x < utf8Len (b0.lines.getD new_y []) then
        { b0 with cursor_x2 := some (new_x + 1) }
      else if new_y < b0.lines.length - 1 then
        { b0 with cursor_y2 := some (new_y + 1), cursor_x2 := some 0 }
      else b0
  else
    match direction with
    | Direction.Up =>
      if 0 < b.cursor_y then
        { b with
          cursor_y := b.cursor_y - 1
          cursor_x := min b.cursor_x (utf8Len (b.lines.getD (b.cursor_y - 1) [])) }
      else b
    | Direction.Down =>
      if b.cursor_y < b.lines.length - 1 then
        { b with
          cursor_y := b.cursor_y + 1
          cursor_x := min b.cursor_x (utf8Len (b.lines.getD (b.cursor_y + 1) [])) }
      else b
    | Direction.Left =>
      if 0 < b.cursor_x then { b with cursor_x := b.cursor_x - 1 }
      else if 0 < b.cursor_y then
        { b with
          cursor_y := b.cursor_y - 1
          cursor_x := utf8Len (b.lines.getD (b.cursor_y - 1) []) }
      else b
    | Direction.Right =>
      if b.cursor_x < utf8Len b.current_line then
        { b with cursor_x := b.cursor_x + 1 }
      else if b.cursor_y < b.lines.length - 1 then
        { b with cursor_y := b.cursor_y + 1, cursor_x := 0 }
      else b

/-- The scroll-offset adjustment at the end of `TextBuffer::move_cursor`:
first keep the primary cursor's line inside the viewport, then do the same
for the secondary cursor's line if one exists. -/
def TextBuffer.adjust_scroll (b : TextBuffer) (terminal_size : Nat × Nat) :
    TextBuffer :=
  let editor_height := terminal_size.2 - 2
  let off1 :=
    if b.cursor_y < b.offset_y then b.cursor_y
    else if b.offset_y + editor_height ≤ b.cursor_y then
      b.cursor_y - editor_height + 1
    else b.offset_y
  let off2 :=
    match b.cursor_y2 with
    | some y2 =>
      if y2 < off1 then y2
      else if off1 + editor_height ≤ y2 then y2 - editor_height + 1
      else off1
    | none => off1
  { b with offset_y := off2 }

/-- `TextBuffer::move_cursor`. -/
def TextBuffer.move_cursor (b : TextBuffer) (direction : Direction)
    (terminal_size : Nat × Nat) (is_secondary : Bool) : TextBuffer :=
  (b.move_cursor_core direction is_secondary).adjust_scroll terminal_size

/-- `TextBuffer::save`, with `fs::write` modelled by returning the content
that would be written: the result is the buffer afterwards, the `Ok`
payload, and `some content` when a write happens. -/
def TextBuffer.save (b : TextBuffer) : TextBuffer × Bool × Option (List Char) :=
  match b.filename with
  | some _ => ({ b with modified := false }, true, some (joinLines b.lines))
  | none => (b, false, none)

/-- The byte offset of character index `k` of a line. -/
def byteIdx (l : List Char) (k : Nat) : Nat :=
  utf8Len (l.take k)

/-! ### Byte-offset arithmetic -/

theorem utf8Len_nil : utf8Len [] = 0 := rfl

theorem utf8Len_cons (c : Char) (cs : List Char) :
    utf8Len (c :: cs) = c.utf8Size + utf8Len cs := rfl

theorem utf8Len_append (a b : List Char) :
    utf8Len (a ++ b) = utf8Len a + utf8Len b := by
  induction a with
  | nil => simp [utf8Len_nil]
  | cons c cs ih => simp [utf8Len_cons, ih]; omega

theorem byteIdx_zero (l : List Char) : byteIdx l 0 = 0 := rfl

theorem byteIdx_cons (c : Char) (cs : List Char) (k : Nat) :
    byteIdx (c :: cs) (k + 1) = c.utf8Size + byteIdx cs k := by
  simp [byteIdx, List.take, utf8Len_cons]

theorem byteIdx_le (l : List Char) (k : Nat) : byteIdx l k ≤ utf8Len l := by
  calc byteIdx l k ≤ utf8Len (l.take k) + utf8Len (l.drop k) := Nat.le_add_right _ _
  _ = utf8Len l := by rw [← utf8Len_append, List.take_append_drop]

theorem byteIdx_succ (l : List Char) (k : Nat) (d : Char) (h : k < l.length) :
    byteIdx l (k + 1) = byteIdx l k + (l.getD k d).utf8Size := by
  unfold byteIdx
  rw [List.take_succ, utf8Len_append, List.getD_eq_getElem l d h,
    List.getElem?_eq_getElem h]
  simp [utf8Len_cons, utf8Len_nil]

theorem isCharBoundary_zero (l : List Char) : isCharBoundary l 0 = true := by
  cases l <;> rfl

theorem isCharBoundary_shift (c : Char) (cs : List Char) (n : Nat) :
    isCharBoundary (c :: cs) (c.utf8Size + n) = isCharBoundary cs n := by
  have hw : 0 < c.utf8Size := Char.utf8Size_pos c
  obtain ⟨m, hm⟩ : ∃ m, c.utf8Size + n = m + 1 := ⟨c.utf8Size + n - 1, by omega⟩
  rw [hm]
  show (if m + 1 < c.utf8Size then false else isCharBoundary cs (m + 1 - c.utf8Size)) = _
  rw [if_neg (by omega)]
  congr 1
  omega

theorem isCharBoundary_byteIdx (l : List Char) (k : Nat) :
    isCharBoundary l (byteIdx l k) = true := by
  induction l generalizing k with
  | nil => simp [byteIdx, utf8Len_nil, isCharBoundary_zero]
  | cons c cs ih =>
    cases k with
    | zero => exact isCharBoundary_zero _
    | succ j => rw [byteIdx_cons, isCharBoundary_shift]; exact ih j

theorem safePos_boundary (l : List Char) (x : Nat)
    (hb : isCharBoundary l x = true) (hle : x ≤ utf8Len l) :
    safePos l x = x := by
  unfold safePos
  rw [if_neg (by omega), if_pos hb]

theorem safePos_byteIdx (l : List Char) (k : Nat) :
    safePos l (byteIdx l k) = byteIdx l k :=
  safePos_boundary l _ (isCharBoundary_byteIdx l k) (byteIdx_le l k)

theorem insertAtByte_byteIdx (l : List Char) (k : Nat) (ch : Char)
    (h : k ≤ l.length) :
    insertAtByte l (byteIdx l k) ch = l.take k ++ ch :: l.drop k := by
  induction l generalizing k with
  | nil => simp at h; subst h; rfl
  | cons c cs ih =>
    cases k with
    | zero => rfl
    | succ j =>
      have hw : 0 < c.utf8Size := Char.utf8Size_pos c
      rw [byteIdx_cons]
      show (if c.utf8Size + byteIdx cs j = 0 then _ else
        c :: insertAtByte cs (c.utf8Size + byteIdx cs j - c.utf8Size) ch) = _
      rw [if_neg (by omega)]
      have hj : c.utf8Size + byteIdx cs j - c.utf8Size = byteIdx cs j := by omega
      rw [hj, ih j (by simpa using h)]
      rfl

theorem charAtByte_byteIdx (l : List Char) (k : Nat) (h : k < l.length) :
    charAtByte l (byteIdx l k) = l.getD k (Char.ofNat 0) := by
  induction l generalizing k with
  | nil => simp at h
  | cons c cs ih =>
    cases k with
    | zero => rfl
    | succ j =>
      have hw : 0 < c.utf8Size := Char.utf8Size_pos c
      rw [byteIdx_cons]
      show (if c.utf8Size + byteIdx cs j = 0 then c else
        charAtByte cs (c.utf8Size + byteIdx cs j - c.utf8Size)) = _
      rw [if_neg (by omega)]
      have hj : c.utf8Size + byteIdx cs j - c.utf8Size = byteIdx cs j := by omega
      rw [hj, ih j (by simpa using h)]
      rfl

theorem splitAtByte_byteIdx (l : List Char) (k : Nat) (h : k ≤ l.length) :
    splitAtByte l (byteIdx l k) = (l.take k, l.drop k) := by
  induction l generalizing k with
  | nil => simp at h; subst h; rfl
  | cons c cs ih =>
    cases k with
    | zero => rfl
    | succ j =>
      have hw : 0 < c.utf8Size := Char.utf8Size_pos c
      rw [byteIdx_cons]
      show (if c.utf8Size + byteIdx cs j = 0 then _ else
        ((c :: (splitAtByte cs (c.utf8Size + byteIdx cs j - c.utf8Size)).1,
          (splitAtByte cs (c.utf8Size + byteIdx cs j - c.utf8Size)).2))) = _
      rw [if_neg (by omega)]
      have hj : c.utf8Size + byteIdx cs j - c.utf8Size = byteIdx cs j := by omega
      rw [hj, ih j (by simpa using h)]
      rfl

theorem lastStartBeforeAux_ge (l : List Char) (s i best : Nat) (h : ¬ s < i) :
    lastStartBeforeAux l s i best = best := by
  cases l with
  | nil => rfl
  | cons c cs => unfold lastStartBeforeAux; rw [if_neg h]

theorem lastStartBeforeAux_byteIdx (l : List Char) (s best k : Nat)
    (h1 : 1 ≤ k) (h2 : k ≤ l.length) :
    lastStartBeforeAux l s (s + byteIdx l k) best = s + byteIdx l (k - 1) := by
  induction l generalizing s best k with
  | nil => simp at h2; omega
  | cons c cs ih =>
    have hw : 0 < c.utf8Size := Char.utf8Size_pos c
    obtain ⟨j, rfl⟩ : ∃ j, k = j + 1 := ⟨k - 1, by omega⟩
    rw [byteIdx_cons]
    unfold lastStartBeforeAux
    rw [if_pos (by omega)]
    cases j with
    | zero =>
      rw [lastStartBeforeAux_ge _ _ _ _ (by simp [byteIdx_zero])]
      simp [byteIdx_zero]
    | succ j' =>
      have harg : s + (c.utf8Size + byteIdx cs (j' + 1)) =
          (s + c.utf8Size) + byteIdx cs (j' + 1) := by omega
      rw [harg, ih (s + c.utf8Size) s (j' + 1) (by omega) (by simpa using h2)]
      have h1' : j' + 1 + 1 - 1 = j' + 1 := by omega
      rw [h1', byteIdx_cons]
      have h2' : j' + 1 - 1 = j' := by omega
      rw [h2']
      omega

theorem lastStartBefore_byteIdx (l : List Char) (k : Nat)
    (h1 : 1 ≤ k) (h2 : k ≤ l.length) :
    lastStartBefore l (byteIdx l k) = byteIdx l (k - 1) := by
  have := lastStartBeforeAux_byteIdx l 0 0 k h1 h2
  simpa [lastStartBefore] using this

theorem drainBytesAux_stop (l : List Char) (s a b : Nat) (h : b ≤ s) :
    drainBytesAux l s a b = l := by
  induction l generalizing s with
  | nil => rfl
  | cons c cs ih =>
    unfold drainBytesAux
    rw [if_neg (by omega)]
    rw [ih (s + c.utf8Size) (by omega)]

theorem drainBytesAux_from_start (l : List Char) (s a m : Nat)
    (ha : a ≤ s) (hm : m ≤ l.length) :
    drainBytesAux l s a (s + byteIdx l m) = l.drop m := by
  induction l generalizing s m with
  | nil => simp [drainBytesAux]
  | cons c cs ih =>
    have hw : 0 < c.utf8Size := Char.utf8Size_pos c
    cases m with
    | zero =>
      rw [byteIdx_zero]
      unfold drainBytesAux
      rw [if_neg (by omega)]
      rw [drainBytesAux_stop _ _ _ _ (by omega)]
      rfl
    | succ j =>
      rw [byteIdx_cons]
      unfold drainBytesAux
      rw [if_pos (by constructor <;> omega)]
      have := ih (s + c.utf8Size) j (by omega) (by simpa using hm)
      rw [show s + (c.utf8Size + byteIdx cs j) = (s + c.utf8Size) + byteIdx cs j by omega,
        this]
      rfl

theorem drainBytesAux_spec (l : List Char) (s j k : Nat)
    (hjk : j ≤ k) (hk : k ≤ l.length) :
    drainBytesAux l s (s + byteIdx l j) (s + byteIdx l k) = l.take j ++ l.drop k := by
  induction l generalizing s j k with
  | nil =>
    simp at hk
    subst hk
    have hj : j = 0 := by omega
    subst hj
    simp [drainBytesAux]
  | cons c cs ih =>
    have hw : 0 < c.utf8Size := Char.utf8Size_pos c
    cases j with
    | zero =>
      rw [byteIdx_zero]
      have := drainBytesAux_from_start (c :: cs) s s k (le_refl s) hk
      simpa using this
    | succ j' =>
      obtain ⟨k', rfl⟩ : ∃ k', k = k' + 1 := ⟨k - 1, by omega⟩
      rw [byteIdx_cons, byteIdx_cons]
      unfold drainBytesAux
      rw [if_neg (by omega)]
      have := ih (s + c.utf8Size) j' k' (by omega) (by simpa using hk)
      rw [show s + (c.utf8Size + byteIdx cs j') = (s + c.utf8Size) + byteIdx cs j' by omega,
        show s + (c.utf8Size + byteIdx cs k') = (s + c.utf8Size) + byteIdx cs k' by omega,
        this]
      rfl

theorem drainBytes_byteIdx (l : List Char) (j k : Nat)
    (hjk : j ≤ k) (hk : k ≤ l.length) :
    drainBytes l (byteIdx l j) (byteIdx l k) = l.take j ++ l.drop k := by
  have := drainBytesAux_spec l 0 j k hjk hk
  simpa [drainBytes] using this

/-! ### List helpers -/

theorem set_getD_self {α : Type} (l : List α) (n : Nat) (d : α)
    (h : n < l.length) : l.set n (l.getD n d) = l := by
  induction l generalizing n with
  | nil => simp at h
  | cons a t ih =>
    cases n with
    | zero => rfl
    | succ m =>
      rw [List.getD_cons_succ, List.set_cons_succ, ih m (by simpa using h)]

theorem listInsertAt_length {α : Type} (l : List α) (i : Nat) (a : α)
    (h : i ≤ l.length) : (listInsertAt l i a).length = l.length + 1 := by
  simp [listInsertAt]
  omega

theorem set_insertAt_split {α : Type} (L : List α) (y : Nat) (a c : α)
    (h : y < L.length) :
    listInsertAt (L.set y a) (y + 1) c = L.take y ++ a :: c :: L.drop (y + 1) := by
  induction L generalizing y with
  | nil => simp at h
  | cons x t ih =>
    cases y with
    | zero => rfl
    | succ m =>
      rw [List.set_cons_succ]
      show x :: listInsertAt (t.set m a) (m + 1) c = x :: (t.take m ++ a :: c :: t.drop (m + 1))
      rw [ih m (by simpa using h)]

theorem set_eraseIdx_merge {α : Type} (L : List α) (y : Nat) (v : α)
    (hy : 0 < y) (h : y < L.length) :
    (L.eraseIdx y).set (y - 1) v = L.take (y - 1) ++ v :: L.drop (y + 1) := by
  induction L generalizing y with
  | nil => simp at h
  | cons x t ih =>
    cases y with
    | zero => omega
    | succ m =>
      cases m with
      | zero =>
        cases t with
        | nil => simp at h
        | cons x2 t2 => rfl
      | succ m' =>
        show x :: (t.eraseIdx (m' + 1)).set m' v = x :: (t.take m' ++ v :: t.drop (m' + 1 + 1))
        have h1 := ih (m' + 1) (by omega) (by simpa using h)
        have h2 : m' + 1 - 1 = m' := rfl
        rw [h2] at h1
        rw [h1]

theorem getD_eraseIdx_lt {α : Type} (L : List α) (n m : Nat) (d : α)
    (h : m < n) : (L.eraseIdx n).getD m d = L.getD m d := by
  induction L generalizing n m with
  | nil => rfl
  | cons x t ih =>
    cases n with
    | zero => omega
    | succ n' =>
      cases m with
      | zero => rfl
      | succ m' =>
        show (t.eraseIdx n').getD m' d = t.getD m' d
        exact ih n' m' (by omega)

theorem byteIdx_length (l : List Char) : byteIdx l l.length = utf8Len l := by
  simp [byteIdx]

theorem byteIdx_mono (l : List Char) (j k : Nat) (h : j ≤ k) :
    byteIdx l j ≤ byteIdx l k := by
  have h1 : (l.take k).take j = l.take j := by
    rw [List.take_take, Nat.min_eq_left h]
  calc byteIdx l j = byteIdx (l.take k) j := by rw [byteIdx, byteIdx, h1]
  _ ≤ utf8Len (l.take k) := byteIdx_le _ _
  _ = byteIdx l k := rfl

theorem byteIdx_pos (l : List Char) (k : Nat) (h1 : 1 ≤ k) (h2 : k ≤ l.length) :
    0 < byteIdx l k := by
  have hlen : 0 < l.length := by omega
  have hstep := byteIdx_succ l 0 (Char.ofNat 0) hlen
  simp only [Nat.zero_add, byteIdx_zero] at hstep
  have hw := Char.utf8Size_pos (l.getD 0 (Char.ofNat 0))
  have hmono := byteIdx_mono l 1 k h1
  omega

theorem byteIdx_lt (l : List Char) (k : Nat) (h : k < l.length) :
    byteIdx l k < utf8Len l := by
  have h1 := byteIdx_succ l k (Char.ofNat 0) h
  have h2 := byteIdx_le l (k + 1)
  have h3 := Char.utf8Size_pos (l.getD k (Char.ofNat 0))
  omega

theorem getD_set_self {α : Type} (l : List α) (n : Nat) (a d : α)
    (h : n < l.length) : (l.set n a).getD n d = a := by
  rw [List.getD_eq_getElem _ d (by simpa using h)]
  simp [List.getElem_set]

/-! ### Unfolding equations for the buffer operations at a valid cursor

Throughout, the primary cursor is assumed to sit at the byte offset of
character index `k` of the current line; this is the state every reachable
buffer is in, since every mutation moves `cursor_x` between character
boundaries. -/

theorem insert_char_eq (b : TextBuffer) (ch : Char) (k : Nat)
    (hk : k ≤ (b.lines.getD b.cursor_y []).length)
    (hx : b.cursor_x = byteIdx (b.lines.getD b.cursor_y []) k)
    (hne : k = (b.lines.getD b.cursor_y []).length ∨
      (b.lines.getD b.cursor_y []).getD k (Char.ofNat 0) ≠ ch) :
    b.insert_char ch = { b with
      lines := b.lines.set b.cursor_y
        ((b.lines.getD b.cursor_y []).take k ++
          ch :: (b.lines.getD b.cursor_y []).drop k)
      cursor_x := b.cursor_x + ch.utf8Size
      cursor_x2 :=
        match b.cursor_x2 with
        | some x2 =>
          if b.cursor_y2 = some b.cursor_y ∧ b.cursor_x ≤ x2 then
            some (x2 + ch.utf8Size)
          else some x2
        | none => none
      modified := true } := by
  simp only [TextBuffer.insert_char, TextBuffer.current_line]
  rw [hx, safePos_byteIdx]
  have hguard : ¬ (byteIdx (b.lines.getD b.cursor_y []) k <
      utf8Len (b.lines.getD b.cursor_y []) ∧
      charAtByte (b.lines.getD b.cursor_y [])
        (byteIdx (b.lines.getD b.cursor_y []) k) = ch) := by
    intro hc
    rcases Nat.lt_or_ge k (b.lines.getD b.cursor_y []).length with hlt | hge
    · rcases hne with h | h
      · omega
      · exact h (by rw [← charAtByte_byteIdx _ _ hlt]; exact hc.2)
    · have hkeq : k = (b.lines.getD b.cursor_y []).length := le_antisymm hk hge
      rw [hkeq, byteIdx_length] at hc
      exact absurd hc.1 (lt_irrefl _)
  rw [if_neg hguard, insertAtByte_byteIdx _ _ _ hk]

theorem delete_char_inline_eq (b : TextBuffer) (k : Nat)
    (h1 : 1 ≤ k) (hk : k ≤ (b.lines.getD b.cursor_y []).length)
    (hx : b.cursor_x = byteIdx (b.lines.getD b.cursor_y []) k) :
    b.delete_char = { b with
      lines := b.lines.set b.cursor_y
        ((b.lines.getD b.cursor_y []).take (k - 1) ++
          (b.lines.getD b.cursor_y []).drop k)
      cursor_x := byteIdx (b.lines.getD b.cursor_y []) (k - 1)
      cursor_x2 :=
        match b.cursor_x2 with
        | some x2 =>
          if b.cursor_y2 = some b.cursor_y ∧ b.cursor_x ≤ x2 then
            some (x2 - (byteIdx (b.lines.getD b.cursor_y []) k -
              byteIdx (b.lines.getD b.cursor_y []) (k - 1)))
          else some x2
        | none => none
      modified := true } := by
  have hpos : 0 < byteIdx (b.lines.getD b.cursor_y []) k := byteIdx_pos _ k h1 hk
  simp only [TextBuffer.delete_char, TextBuffer.current_line]
  rw [hx, safePos_byteIdx]
  rw [if_pos hpos, if_pos hpos, lastStartBefore_byteIdx _ _ h1 hk,
    drainBytes_byteIdx _ (k - 1) k (by omega) hk]

theorem delete_char_merge_eq (b : TextBuffer)
    (hx : b.cursor_x = 0) (hy : 0 < b.cursor_y)
    (hylen : b.cursor_y < b.lines.length) :
    b.delete_char = { b with
      lines := b.lines.take (b.cursor_y - 1) ++
        (b.lines.getD (b.cursor_y - 1) [] ++ b.lines.getD b.cursor_y []) ::
        b.lines.drop (b.cursor_y + 1)
      cursor_x := utf8Len (b.lines.getD (b.cursor_y - 1) [])
      cursor_y := b.cursor_y - 1
      cursor_x2 :=
        (match b.cursor_x2, b.cursor_y2 with
        | some x2, some y2 =>
          if y2 > b.cursor_y then (some x2, some (y2 - 1))
          else if y2 = b.cursor_y then
            (some (utf8Len (b.lines.getD (b.cursor_y - 1) []) + x2), some (y2 - 1))
          else (some x2, some y2)
        | ox2, oy2 => (ox2, oy2)).1
      cursor_y2 :=
        (match b.cursor_x2, b.cursor_y2 with
        | some x2, some y2 =>
          if y2 > b.cursor_y then (some x2, some (y2 - 1))
          else if y2 = b.cursor_y then
            (some (utf8Len (b.lines.getD (b.cursor_y - 1) []) + x2), some (y2 - 1))
          else (some x2, some y2)
        | ox2, oy2 => (ox2, oy2)).2
      modified := true } := by
  simp only [TextBuffer.delete_char, TextBuffer.current_line]
  rw [if_neg (by omega), if_pos hy]
  have hsucc : b.cursor_y - 1 + 1 = b.cursor_y := by omega
  have hprev : (b.lines.eraseIdx b.cursor_y).getD (b.cursor_y - 1) [] =
      b.lines.getD (b.cursor_y - 1) [] :=
    getD_eraseIdx_lt _ _ _ _ (by omega)
  rw [hprev, hsucc,
    set_eraseIdx_merge b.lines b.cursor_y _ hy hylen]

theorem delete_char_origin_noop (b : TextBuffer)
    (hx : b.cursor_x = 0) (hy : b.cursor_y = 0) :
    b.delete_char = b := by
  simp only [TextBuffer.delete_char, TextBuffer.current_line]
  rw [if_neg (by omega), if_neg (by omega)]

theorem insert_newline_eq (b : TextBuffer) (k : Nat)
    (hy : b.cursor_y < b.lines.length)
    (hk : k ≤ (b.lines.getD b.cursor_y []).length)
    (hx : b.cursor_x = byteIdx (b.lines.getD b.cursor_y []) k) :
    b.insert_newline = { b with
      lines := b.lines.take b.cursor_y ++
        (b.lines.getD b.cursor_y []).take k ::
        (b.lines.getD b.cursor_y []).drop k :: b.lines.drop (b.cursor_y + 1)
      cursor_y := b.cursor_y + 1
      cursor_x := 0
      cursor_y2 :=
        match b.cursor_y2 with
        | some y2 => if y2 > b.cursor_y then some (y2 + 1) else some y2
        | none => none
      modified := true } := by
  simp only [TextBuffer.insert_newline, TextBuffer.current_line]
  rw [hx, safePos_byteIdx, splitAtByte_byteIdx _ _ hk]
  rw [set_insertAt_split b.lines b.cursor_y _ _ hy]
  rfl

/-! ### Claims -/

/-- Concrete buffer for claim C1's counterexample: a single line `"A"`
with the primary cursor at `(0,0)`. -/
def c1Buf : TextBuffer :=
  { TextBuffer.new with lines := [['A']] }

/-- C1 counterexample: with line `"A"` and the primary cursor at `(0,0)`,
`insert_char 'A'` hits the duplicate-character guard of `src/buffer.rs`:
nothing is inserted, the cursor does not move and the dirty flag stays
`false`, contradicting the claim that every `insert_char` call inserts
the character and sets `dirty = true`. -/
theorem C1_counterexample :
    c1Buf.insert_char 'A' = c1Buf ∧
    (c1Buf.insert_char 'A').lines = [['A']] ∧
    (c1Buf.insert_char 'A').cursor_x = 0 ∧
    (c1Buf.insert_char 'A').modified = false := by
  decide

/-- C1 (amended): provided the character occupying the cursor's position
(if any) differs from `ch` — otherwise the duplicate-insertion guard makes
the call a no-op, see C10 — `insert_char ch` inserts `ch` at the primary
cursor's character index `k` on the current line, advances the primary
cursor by one character (its byte offset grows by the character's UTF-8
width), sets the dirty flag, and shifts a secondary cursor on the same
line at or after the insertion point right by one character. -/
theorem C1_insert_char (b : TextBuffer) (ch : Char) (k : Nat)
    (hy : b.cursor_y < b.lines.length)
    (hk : k ≤ (b.lines.getD b.cursor_y []).length)
    (hx : b.cursor_x = byteIdx (b.lines.getD b.cursor_y []) k)
    (hne : k = (b.lines.getD b.cursor_y []).length ∨
      (b.lines.getD b.cursor_y []).getD k (Char.ofNat 0) ≠ ch) :
    (b.insert_char ch).lines = b.lines.set b.cursor_y
      ((b.lines.getD b.cursor_y []).take k ++
        ch :: (b.lines.getD b.cursor_y []).drop k) ∧
    (b.insert_char ch).cursor_x = b.cursor_x + ch.utf8Size ∧
    (b.insert_char ch).cursor_y = b.cursor_y ∧
    (b.insert_char ch).modified = true ∧
    (∀ x2, b.cursor_x2 = some x2 →
      (b.insert_char ch).cursor_x2 =
        some (if b.cursor_y2 = some b.cursor_y ∧ b.cursor_x ≤ x2 then
          x2 + ch.utf8Size else x2)) ∧
    (b.cursor_x2 = none → (b.insert_char ch).cursor_x2 = none) := by
  rw [insert_char_eq b ch k hk hx hne]
  refine ⟨rfl, rfl, rfl, rfl, ?_, ?_⟩
  · intro x2 h2
    simp only [h2]
    split <;> rfl
  · intro h2
    simp only [h2]

/-- Witness for C1: line `"AB"`, cursor after `'A'` (character index 1),
secondary cursor at `(2,0)`, inserting `'C'`. -/
theorem C1_insert_char_witness :
    (({ TextBuffer.new with
        lines := [['A','B']]
        cursor_x := 1
        cursor_x2 := some 2
        cursor_y2 := some 0 } :
      TextBuffer).insert_char 'C').lines = [['A','C','B']] ∧
    (({ TextBuffer.new with
        lines := [['A','B']]
        cursor_x := 1
        cursor_x2 := some 2
        cursor_y2 := some 0 } :
      TextBuffer).insert_char 'C').cursor_x = 2 ∧
    (({ TextBuffer.new with
        lines := [['A','B']]
        cursor_x := 1
        cursor_x2 := some 2
        cursor_y2 := some 0 } :
      TextBuffer).insert_char 'C').cursor_x2 = some 3 := by
  have h := C1_insert_char
    { TextBuffer.new with
      lines := [['A','B']]
      cursor_x := 1
      cursor_x2 := some 2
      cursor_y2 := some 0 }
    'C' 1 (by decide) (by decide) (by decide) (Or.inr (by decide))
  refine ⟨?_, ?_, ?_⟩
  · rw [h.1]; rfl
  · rw [h.2.1]; decide
  · rw [h.2.2.2.2.1 2 rfl]; decide

/-- C9 (confirmed): `save` with no associated path is the distinct
`Ok(false)` "nothing to save" outcome — no write happens and the buffer,
dirty flag included, is unchanged; with an associated path it writes the
lines joined by single newlines (no trailing newline appended) and clears
the dirty flag, leaving every other field unchanged. -/
theorem C9_save (b : TextBuffer) :
    (b.filename = none → b.save = (b, false, none)) ∧
    (∀ p, b.filename = some p →
      b.save = ({ b with modified := false }, true, some (joinLines b.lines))) := by
  constructor
  · intro h
    simp [TextBuffer.save, h]
  · intro p h
    simp [TextBuffer.save, h]

/-- Witness for C9 on concrete buffers, one per branch. -/
theorem C9_save_witness :
    ({ TextBuffer.new with lines := [['h','i'],['y','o']], modified := true } :
      TextBuffer).save =
      ({ TextBuffer.new with lines := [['h','i'],['y','o']], modified := true },
        false, none) ∧
    ({ TextBuffer.new with
        lines := [['h','i'],['y','o']]
        modified := true
        filename := some 7 } : TextBuffer).save =
      ({ TextBuffer.new with
          lines := [['h','i'],['y','o']]
          modified := false
          filename := some 7 }, true, some ['h','i','\n','y','o']) := by
  constructor
  · exact (C9_save _).1 rfl
  · have h := (C9_save { TextBuffer.new with
      lines := [['h','i'],['y','o']]
      modified := true
      filename := some 7 }).2 7 rfl
    rw [h]
    rfl

/-- C10 (confirmed): if the character occupying the primary cursor's
position on the current line equals `ch`, `insert_char ch` leaves the
entire buffer unchanged — the duplicate-insertion guard of
`src/buffer.rs` returns early without inserting, moving any cursor, or
setting the dirty flag. -/
theorem C10_insert_char_duplicate (b : TextBuffer) (ch : Char) (k : Nat)
    (hy : b.cursor_y < b.lines.length)
    (hk : k < (b.lines.getD b.cursor_y []).length)
    (hx : b.cursor_x = byteIdx (b.lines.getD b.cursor_y []) k)
    (hch : (b.lines.getD b.cursor_y []).getD k (Char.ofNat 0) = ch) :
    b.insert_char ch = b := by
  simp only [TextBuffer.insert_char, TextBuffer.current_line]
  rw [hx, safePos_byteIdx]
  rw [if_pos ⟨byteIdx_lt _ _ hk, by rw [charAtByte_byteIdx _ _ hk, hch]⟩]

/-- Witness for C10: line `"AB"`, cursor at character index 1, inserting
the `'B'` already at that position. -/
theorem C10_insert_char_duplicate_witness :
    ({ TextBuffer.new with lines := [['A','B']], cursor_x := 1 } :
      TextBuffer).insert_char 'B' =
    { TextBuffer.new with lines := [['A','B']], cursor_x := 1 } :=
  C10_insert_char_duplicate _ 'B' 1 (by decide) (by decide) (by decide) (by decide)

/-- Concrete buffer for claim C4's counterexample: line `"AB"`, primary
cursor at `(1,0)` (the split point), secondary cursor at `(2,0)` — on the
split line, after the split point. -/
def c4Buf : TextBuffer :=
  { TextBuffer.new with
    lines := [['A','B']]
    cursor_x := 1
    cursor_x2 := some 2
    cursor_y2 := some 0 }

/-- C4 counterexample: the secondary cursor sits on the split line at a
position at/after the split point, so by the claim its line index should
become 1; `insert_newline` leaves it at 0 (the code only increments line
indices strictly below the split line and never touches `cursor_x2`). -/
theorem C4_counterexample :
    c4Buf.cursor_x2 = some 2 ∧ c4Buf.cursor_y2 = some 0 ∧
    c4Buf.cursor_x = 1 ∧ c4Buf.cursor_y = 0 ∧
    (c4Buf.insert_newline).cursor_y2 = some 0 ∧
    ¬ (c4Buf.insert_newline).cursor_y2 = some 1 := by
  decide

/-- C4 (amended): `insert_newline` splits the current line at the primary
cursor into `(left, right)`, replaces the current line with `left`,
inserts `right` immediately after it, and moves the primary cursor to
`(0, y+1)`; a secondary cursor on a line strictly below the split line
has its line index incremented by one, while a secondary cursor on the
split line itself — even at or after the split point — keeps its line
index (and its column) unchanged. -/
theorem C4_insert_newline (b : TextBuffer) (k : Nat)
    (hy : b.cursor_y < b.lines.length)
    (hk : k ≤ (b.lines.getD b.cursor_y []).length)
    (hx : b.cursor_x = byteIdx (b.lines.getD b.cursor_y []) k) :
    b.insert_newline.lines = b.lines.take b.cursor_y ++
      (b.lines.getD b.cursor_y []).take k ::
      (b.lines.getD b.cursor_y []).drop k :: b.lines.drop (b.cursor_y + 1) ∧
    b.insert_newline.cursor_x = 0 ∧
    b.insert_newline.cursor_y = b.cursor_y + 1 ∧
    b.insert_newline.modified = true ∧
    (∀ y2, b.cursor_y2 = some y2 →
      b.insert_newline.cursor_y2 =
        some (if b.cursor_y < y2 then y2 + 1 else y2)) ∧
    (b.cursor_y2 = none → b.insert_newline.cursor_y2 = none) ∧
    b.insert_newline.cursor_x2 = b.cursor_x2 := by
  rw [insert_newline_eq b k hy hk hx]
  refine ⟨rfl, rfl, rfl, rfl, ?_, ?_, rfl⟩
  · intro y2 h2
    simp only [h2]
    split <;> rfl
  · intro h2
    simp only [h2]

/-- Witness for C4: Scenario B — line `"AB"`, cursor `(1,0)`, secondary
cursor on the line below; after `insert_newline` the lines are
`["A","B"]`, the cursor is `(0,1)` and the secondary moved from line 1 to
line 2. -/
theorem C4_insert_newline_witness :
    (({ TextBuffer.new with
        lines := [['A','B'],['Z']]
        cursor_x := 1
        cursor_x2 := some 0
        cursor_y2 := some 1 } : TextBuffer).insert_newline).lines =
      [['A'],['B'],['Z']] ∧
    (({ TextBuffer.new with
        lines := [['A','B'],['Z']]
        cursor_x := 1
        cursor_x2 := some 0
        cursor_y2 := some 1 } : TextBuffer).insert_newline).cursor_x = 0 ∧
    (({ TextBuffer.new with
        lines := [['A','B'],['Z']]
        cursor_x := 1
        cursor_x2 := some 0
        cursor_y2 := some 1 } : TextBuffer).insert_newline).cursor_y = 1 ∧
    (({ TextBuffer.new with
        lines := [['A','B'],['Z']]
        cursor_x := 1
        cursor_x2 := some 0
        cursor_y2 := some 1 } : TextBuffer).insert_newline).cursor_y2 = some 2 := by
  have h := C4_insert_newline
    { TextBuffer.new with
      lines := [['A','B'],['Z']]
      cursor_x := 1
      cursor_x2 := some 0
      cursor_y2 := some 1 }
    1 (by decide) (by decide) (by decide)
  refine ⟨?_, h.2.1, ?_, ?_⟩
  · rw [h.1]; decide
  · rw [h.2.2.1]; decide
  · rw [h.2.2.2.2.1 1 rfl]; decide

/-- C5 (confirmed): with the primary cursor at `x = 0` on a valid line
`y > 0`, `delete_char` merges the current line into the end of the
previous line — the cursor moves to the previous line's old byte length
on line `y - 1`, the current line's text is appended to the previous
line, and the current line is removed from the document; deleting at
`(0,0)` changes nothing. -/
theorem C5_delete_char_merge (b : TextBuffer) :
    (b.cursor_x = 0 → 0 < b.cursor_y → b.cursor_y < b.lines.length →
      b.delete_char.lines = b.lines.take (b.cursor_y - 1) ++
        (b.lines.getD (b.cursor_y - 1) [] ++ b.lines.getD b.cursor_y []) ::
        b.lines.drop (b.cursor_y + 1) ∧
      b.delete_char.cursor_y = b.cursor_y - 1 ∧
      b.delete_char.cursor_x = utf8Len (b.lines.getD (b.cursor_y - 1) [])) ∧
    (b.cursor_x = 0 → b.cursor_y = 0 → b.delete_char = b) := by
  constructor
  · intro hx hy hylen
    rw [delete_char_merge_eq b hx hy hylen]
    exact ⟨rfl, rfl, rfl⟩
  · intro hx hy
    exact delete_char_origin_noop b hx hy

/-- Witness for C5: Scenario D — lines `["AB","CD"]`, cursor `(0,1)`;
`delete_char` yields the single line `"ABCD"` with the cursor at `(2,0)`;
and `delete_char` on a fresh buffer (cursor `(0,0)`) is a no-op. -/
theorem C5_delete_char_merge_witness :
    (({ TextBuffer.new with
        lines := [['A','B'],['C','D']]
        cursor_y := 1 } : TextBuffer).delete_char).lines = [['A','B','C','D']] ∧
    (({ TextBuffer.new with
        lines := [['A','B'],['C','D']]
        cursor_y := 1 } : TextBuffer).delete_char).cursor_y = 0 ∧
    (({ TextBuffer.new with
        lines := [['A','B'],['C','D']]
        cursor_y := 1 } : TextBuffer).delete_char).cursor_x = 2 ∧
    TextBuffer.new.delete_char = TextBuffer.new := by
  have h := (C5_delete_char_merge { TextBuffer.new with
    lines := [['A','B'],['C','D']]
    cursor_y := 1 }).1 rfl (by decide) (by decide)
  refine ⟨?_, ?_, ?_, (C5_delete_char_merge TextBuffer.new).2 rfl rfl⟩
  · rw [h.1]; decide
  · rw [h.2.1]; decide
  · rw [h.2.2]; decide

/-- Concrete 50-line document for claim C8, with the cursor at the top. -/
def c8Buf : TextBuffer :=
  { TextBuffer.new with lines := List.replicate 50 [] }

set_option maxRecDepth 40000 in
/-- C8 (confirmed): Scenario F — terminal height 12 gives the editor a
viewport of `12 - 2 = 10` rows; starting from the top of a 50-line
document and pressing Down 45 times moves the primary cursor to line 45
and leaves the vertical scroll offset at `45 - 10 + 1 = 36`, making line
45 the last visible row (`36 + 10 - 1 = 45`). -/
theorem C8_scroll_offset :
    (Nat.iterate (fun b => b.move_cursor Direction.Down (80, 12) false) 45
      c8Buf).cursor_y = 45 ∧
    (Nat.iterate (fun b => b.move_cursor Direction.Down (80, 12) false) 45
      c8Buf).offset_y = 36 ∧
    36 + (12 - 2) - 1 = 45 := by
  decide

/-- Concrete buffer for claim C2's counterexample: line `"AB"`, cursor at
character index 1 (between `'A'` and `'B'`). -/
def c2Buf : TextBuffer :=
  { TextBuffer.new with lines := [['A','B']], cursor_x := 1 }

/-- C2 counterexample: on line `"AB"` with the cursor at index 1,
`insert_char 'B'` is silenced by the duplicate-character guard (the
character at the cursor is already `'B'`), so the following `delete_char`
removes the pre-existing `'A'`: the line ends as `"B"` with the cursor at
0 instead of being restored to `"AB"` with the cursor at 1. -/
theorem C2_counterexample :
    c2Buf.lines = [['A','B']] ∧ c2Buf.cursor_x = 1 ∧
    ((c2Buf.insert_char 'B').delete_char).lines = [['B']] ∧
    ((c2Buf.insert_char 'B').delete_char).cursor_x = 0 := by
  decide

/-- C2 (amended): provided the character occupying the cursor's position
(if any) differs from `c` — so the duplicate-insertion guard does not
silence the insertion — `delete_char` immediately after `insert_char c`
restores the prior line contents and primary cursor position, for any
line content (ASCII or multi-byte) and any character position `k` of the
cursor on it. -/
theorem C2_insert_then_delete (b : TextBuffer) (c : Char) (k : Nat)
    (hy : b.cursor_y < b.lines.length)
    (hk : k ≤ (b.lines.getD b.cursor_y []).length)
    (hx : b.cursor_x = byteIdx (b.lines.getD b.cursor_y []) k)
    (hne : k = (b.lines.getD b.cursor_y []).length ∨
      (b.lines.getD b.cursor_y []).getD k (Char.ofNat 0) ≠ c) :
    ((b.insert_char c).delete_char).lines = b.lines ∧
    ((b.insert_char c).delete_char).cursor_x = b.cursor_x ∧
    ((b.insert_char c).delete_char).cursor_y = b.cursor_y := by
  have hins := insert_char_eq b c k hk hx hne
  set l := b.lines.getD b.cursor_y [] with hl
  set nl : List Char := l.take k ++ c :: l.drop k with hnl
  have hlenA : (l.take k).length = k := by
    simp [List.length_take]
    omega
  have hnl_take : nl.take k = l.take k := List.take_left' hlenA
  have hnl_take1 : nl.take (k + 1) = l.take k ++ [c] := by
    rw [hnl, List.append_cons]
    exact List.take_left' (by simp [hlenA])
  have hnl_drop1 : nl.drop (k + 1) = l.drop k := by
    rw [hnl, List.append_cons]
    exact List.drop_left' (by simp [hlenA])
  have hb1x : byteIdx nl (k + 1) = byteIdx l k + c.utf8Size := by
    show utf8Len (nl.take (k + 1)) = utf8Len (l.take k) + c.utf8Size
    rw [hnl_take1, utf8Len_append]
    simp [utf8Len_cons, utf8Len_nil]
  have hbk : byteIdx nl k = byteIdx l k := by
    show utf8Len (nl.take k) = utf8Len (l.take k)
    rw [hnl_take]
  have hcy : (b.insert_char c).cursor_y = b.cursor_y := by simp [hins]
  have hbl : (b.insert_char c).lines = b.lines.set b.cursor_y nl := by simp [hins]
  have hcl : (b.insert_char c).lines.getD (b.insert_char c).cursor_y [] = nl := by
    rw [hbl, hcy]
    exact getD_set_self _ _ _ _ hy
  have hcx : (b.insert_char c).cursor_x = byteIdx nl (k + 1) := by
    rw [hb1x, ← hx]
    simp [hins]
  have hdel := delete_char_inline_eq (b.insert_char c) (k + 1) (by omega)
    (by rw [hcl, hnl]; simp; omega) (by rw [hcl]; exact hcx)
  rw [hcl] at hdel
  refine ⟨?_, ?_, ?_⟩
  · rw [hdel]
    show (b.insert_char c).lines.set (b.insert_char c).cursor_y
      (nl.take (k + 1 - 1) ++ nl.drop (k + 1)) = b.lines
    rw [Nat.add_sub_cancel, hnl_take, hnl_drop1, List.take_append_drop,
      hbl, hcy, List.set_set, hl]
    exact set_getD_self _ _ _ hy
  · rw [hdel]
    show byteIdx nl (k + 1 - 1) = b.cursor_x
    rw [Nat.add_sub_cancel, hbk, hx]
  · rw [hdel]
    show (b.insert_char c).cursor_y = b.cursor_y
    exact hcy

/-- Witness for C2: line `"AB"`, cursor at index 1, inserting `'X'` (which
differs from the `'B'` at the cursor) and deleting it again restores the
original state. -/
theorem C2_insert_then_delete_witness :
    ((c2Buf.insert_char 'X').delete_char).lines = c2Buf.lines ∧
    ((c2Buf.insert_char 'X').delete_char).cursor_x = c2Buf.cursor_x ∧
    ((c2Buf.insert_char 'X').delete_char).cursor_y = c2Buf.cursor_y :=
  C2_insert_then_delete c2Buf 'X' 1 (by decide) (by decide) (by decide)
    (Or.inr (by decide))

/-- Buffers reachable from a freshly constructed buffer using only
`insert_newline` and `delete_char`. -/
inductive ReachableND : TextBuffer → Prop where
  | init : ReachableND TextBuffer.new
  | newline {b : TextBuffer} : ReachableND b → ReachableND b.insert_newline
  | del {b : TextBuffer} : ReachableND b → ReachableND b.delete_char

/-- Strengthened inductive invariant for `ReachableND` buffers: only empty
lines ever exist (neither operation can create a character), the cursor
column is 0, and both counts stay in range. -/
def InvND (b : TextBuffer) : Prop :=
  0 < b.lines.length ∧ b.cursor_y < b.lines.length ∧ b.cursor_x = 0 ∧
    ∀ l ∈ b.lines, l = ([] : List Char)

theorem InvND_new : InvND TextBuffer.new := by
  refine ⟨by simp [TextBuffer.new], by simp [TextBuffer.new], rfl, ?_⟩
  intro l hl
  simp [TextBuffer.new] at hl
  exact hl

theorem InvND_newline {b : TextBuffer} (h : InvND b) : InvND b.insert_newline := by
  obtain ⟨hpos, hy, hx, hemp⟩ := h
  have hcur : b.lines.getD b.cursor_y [] = [] := by
    rw [List.getD_eq_getElem _ _ hy]
    exact hemp _ (List.getElem_mem hy)
  have heq := insert_newline_eq b 0 hy (by simp) (by rw [hx, byteIdx_zero])
  rw [heq]
  simp only [InvND]
  refine ⟨?_, ?_, trivial, ?_⟩
  · simp
  · simp only [List.length_append, List.length_take, List.length_cons,
      List.length_drop]
    omega
  · intro x hmem
    rw [hcur] at hmem
    simp only [List.take_nil, List.drop_nil, List.mem_append, List.mem_cons] at hmem
    rcases hmem with h1 | h1 | h1 | h1
    · exact hemp _ (List.take_subset _ _ h1)
    · exact h1
    · exact h1
    · exact hemp _ (List.drop_subset _ _ h1)

theorem InvND_del {b : TextBuffer} (h : InvND b) : InvND b.delete_char := by
  obtain ⟨hpos, hy, hx, hemp⟩ := h
  rcases Nat.eq_zero_or_pos b.cursor_y with h0 | hgt
  · rw [delete_char_origin_noop b hx h0]
    exact ⟨hpos, hy, hx, hemp⟩
  · have heq := delete_char_merge_eq b hx hgt hy
    rw [heq]
    simp only [InvND]
    refine ⟨?_, ?_, ?_, ?_⟩
    · simp
    · simp only [List.length_append, List.length_take, List.length_cons,
        List.length_drop]
      omega
    · have hprev : b.lines.getD (b.cursor_y - 1) [] = [] := by
        rw [List.getD_eq_getElem _ _ (by omega)]
        exact hemp _ (List.getElem_mem (by omega))
      show utf8Len (b.lines.getD (b.cursor_y - 1) []) = 0
      rw [hprev]
      exact utf8Len_nil
    · intro x hmem
      have hprev : b.lines.getD (b.cursor_y - 1) [] = [] := by
        rw [List.getD_eq_getElem _ _ (by omega)]
        exact hemp _ (List.getElem_mem (by omega))
      have hcur : b.lines.getD b.cursor_y [] = [] := by
        rw [List.getD_eq_getElem _ _ hy]
        exact hemp _ (List.getElem_mem hy)
      rw [hprev, hcur] at hmem
      simp only [List.nil_append, List.mem_append, List.mem_cons] at hmem
      rcases hmem with h1 | h1 | h1
      · exact hemp _ (List.take_subset _ _ h1)
      · exact h1
      · exact hemp _ (List.drop_subset _ _ h1)

theorem invND_of_reachable {b : TextBuffer} (h : ReachableND b) : InvND b := by
  induction h with
  | init => exact InvND_new
  | newline _ ih => exact InvND_newline ih
  | del _ ih => exact InvND_del ih

/-- C3 (confirmed): every buffer reachable from a fresh buffer by any
sequence of `insert_newline` and `delete_char` calls has at least one
line, a primary cursor line index that is in range, and a cursor column
of at most the character count of the current line. -/
theorem C3_reachable_invariant (b : TextBuffer) (h : ReachableND b) :
    0 < b.lines.length ∧ b.cursor_y < b.lines.length ∧
    b.cursor_x ≤ (b.lines.getD b.cursor_y []).length := by
  obtain ⟨h1, h2, h3, _⟩ := invND_of_reachable h
  exact ⟨h1, h2, by omega⟩

/-- Witness for C3 after the concrete call sequence `insert_newline`
followed by `delete_char` on a fresh buffer. -/
theorem C3_reachable_invariant_witness :
    0 < (TextBuffer.new.insert_newline.delete_char).lines.length ∧
    (TextBuffer.new.insert_newline.delete_char).cursor_y <
      (TextBuffer.new.insert_newline.delete_char).lines.length ∧
    (TextBuffer.new.insert_newline.delete_char).cursor_x ≤
      ((TextBuffer.new.insert_newline.delete_char).lines.getD
        (TextBuffer.new.insert_newline.delete_char).cursor_y []).length :=
  C3_reachable_invariant _ (ReachableND.del (ReachableND.newline ReachableND.init))

/-- The scroll adjustment at the end of `move_cursor` only changes
`offset_y`; every cursor coordinate passes through unchanged. -/
theorem adjust_scroll_cursor (b : TextBuffer) (ts : Nat × Nat) :
    (b.adjust_scroll ts).cursor_x = b.cursor_x ∧
    (b.adjust_scroll ts).cursor_y = b.cursor_y ∧
    (b.adjust_scroll ts).cursor_x2 = b.cursor_x2 ∧
    (b.adjust_scroll ts).cursor_y2 = b.cursor_y2 :=
  ⟨rfl, rfl, rfl, rfl⟩

/-- Concrete buffer for claim C6's counterexample: the single line `"你"`
(one character, three UTF-8 bytes) with the cursor at its end (byte 3). -/
def c6Buf : TextBuffer :=
  { TextBuffer.new with lines := [['你']], cursor_x := 3 }

/-- C6 counterexample: moving Left from the end of the line `"你"` must
land one character left, i.e. at byte 0 (the only other character
boundary); instead `move_cursor` subtracts a single byte and leaves the
cursor at byte 2 — in the middle of the three-byte character. -/
theorem C6_counterexample :
    (c6Buf.move_cursor Direction.Left (80, 12) false).cursor_x = 2 ∧
    ¬ (c6Buf.move_cursor Direction.Left (80, 12) false).cursor_x = 0 ∧
    isCharBoundary ['你'] 2 = false := by
  decide

/-- C6 (amended): `move_cursor` with direction Left moves the addressed
cursor (primary, or an existing secondary) one BYTE to the left when its
`x > 0` — one character only when the preceding character is single-byte;
when `x = 0` and the cursor is not on the first line it moves to the end
(byte length) of the previous line; at `(0,0)` the cursor coordinates are
unchanged. -/
theorem C6_move_left (b : TextBuffer) (ts : Nat × Nat) :
    (0 < b.cursor_x →
      (b.move_cursor Direction.Left ts false).cursor_x = b.cursor_x - 1 ∧
      (b.move_cursor Direction.Left ts false).cursor_y = b.cursor_y) ∧
    (b.cursor_x = 0 → 0 < b.cursor_y →
      (b.move_cursor Direction.Left ts false).cursor_x =
        utf8Len (b.lines.getD (b.cursor_y - 1) []) ∧
      (b.move_cursor Direction.Left ts false).cursor_y = b.cursor_y - 1) ∧
    (b.cursor_x = 0 → b.cursor_y = 0 →
      (b.move_cursor Direction.Left ts false).cursor_x = 0 ∧
      (b.move_cursor Direction.Left ts false).cursor_y = 0) ∧
    (∀ x2 y2, b.cursor_x2 = some x2 → b.cursor_y2 = some y2 →
      (0 < x2 →
        (b.move_cursor Direction.Left ts true).cursor_x2 = some (x2 - 1) ∧
        (b.move_cursor Direction.Left ts true).cursor_y2 = some y2) ∧
      (x2 = 0 → 0 < y2 →
        (b.move_cursor Direction.Left ts true).cursor_x2 =
          some (utf8Len (b.lines.getD (y2 - 1) [])) ∧
        (b.move_cursor Direction.Left ts true).cursor_y2 = some (y2 - 1)) ∧
      (x2 = 0 → y2 = 0 →
        (b.move_cursor Direction.Left ts true).cursor_x2 = some 0 ∧
        (b.move_cursor Direction.Left ts true).cursor_y2 = some 0)) := by
  refine ⟨?_, ?_, ?_, ?_⟩
  · intro hx
    have hcore : b.move_cursor_core Direction.Left false =
        { b with cursor_x := b.cursor_x - 1 } := by
      simp only [TextBuffer.move_cursor_core]
      rw [if_neg Bool.false_ne_true, if_pos hx]
    unfold TextBuffer.move_cursor
    rw [hcore]
    exact ⟨(adjust_scroll_cursor _ ts).1, (adjust_scroll_cursor _ ts).2.1⟩
  · intro hx hy
    have hcore : b.move_cursor_core Direction.Left false =
        { b with
          cursor_y := b.cursor_y - 1
          cursor_x := utf8Len (b.lines.getD (b.cursor_y - 1) []) } := by
      simp only [TextBuffer.move_cursor_core]
      rw [if_neg Bool.false_ne_true, if_neg (by omega), if_pos hy]
    unfold TextBuffer.move_cursor
    rw [hcore]
    exact ⟨(adjust_scroll_cursor _ ts).1, (adjust_scroll_cursor _ ts).2.1⟩
  · intro hx hy
    have hcore : b.move_cursor_core Direction.Left false = b := by
      simp only [TextBuffer.move_cursor_core]
      rw [if_neg Bool.false_ne_true, if_neg (by omega), if_neg (by omega)]
    unfold TextBuffer.move_cursor
    rw [hcore]
    rw [(adjust_scroll_cursor b ts).1, (adjust_scroll_cursor b ts).2.1]
    exact ⟨hx, hy⟩
  · intro x2 y2 hx2 hy2
    refine ⟨?_, ?_, ?_⟩
    · intro hx
      have hcore : b.move_cursor_core Direction.Left true =
          { b with cursor_x2 := some (x2 - 1) } := by
        simp only [TextBuffer.move_cursor_core, hx2, hy2]
        rw [if_pos trivial, if_pos hx]
      unfold TextBuffer.move_cursor
      rw [hcore]
      refine ⟨(adjust_scroll_cursor _ ts).2.2.1, ?_⟩
      rw [(adjust_scroll_cursor _ ts).2.2.2]
      exact hy2
    · intro hx hy
      have hcore : b.move_cursor_core Direction.Left true =
          { b with
            cursor_y2 := some (y2 - 1)
            cursor_x2 := some (utf8Len (b.lines.getD (y2 - 1) [])) } := by
        simp only [TextBuffer.move_cursor_core, hx2, hy2]
        rw [if_pos trivial, if_neg (by omega), if_pos hy]
      unfold TextBuffer.move_cursor
      rw [hcore]
      exact ⟨(adjust_scroll_cursor _ ts).2.2.1, (adjust_scroll_cursor _ ts).2.2.2⟩
    · intro hx hy
      have hcore : b.move_cursor_core Direction.Left true = b := by
        simp only [TextBuffer.move_cursor_core, hx2, hy2]
        rw [if_pos trivial, if_neg (by omega), if_neg (by omega)]
      unfold TextBuffer.move_cursor
      rw [hcore]
      rw [(adjust_scroll_cursor b ts).2.2.1, (adjust_scroll_cursor b ts).2.2.2]
      rw [hx2, hy2, hx, hy]
      exact ⟨rfl, rfl⟩

/-- Witness for C6: lines `["AB","C"]`, primary cursor at byte 2 of line
0, secondary cursor at `(0,1)`; primary Left lands at byte 1, secondary
Left wraps to the end of line 0 (byte 2). -/
theorem C6_move_left_witness :
    (({ TextBuffer.new with
        lines := [['A','B'],['C']]
        cursor_x := 2
        cursor_x2 := some 0
        cursor_y2 := some 1 } : TextBuffer).move_cursor
      Direction.Left (80, 12) false).cursor_x = 1 ∧
    (({ TextBuffer.new with
        lines := [['A','B'],['C']]
        cursor_x := 2
        cursor_x2 := some 0
        cursor_y2 := some 1 } : TextBuffer).move_cursor
      Direction.Left (80, 12) true).cursor_x2 = some 2 ∧
    (({ TextBuffer.new with
        lines := [['A','B'],['C']]
        cursor_x := 2
        cursor_x2 := some 0
        cursor_y2 := some 1 } : TextBuffer).move_cursor
      Direction.Left (80, 12) true).cursor_y2 = some 0 := by
  have h := C6_move_left
    { TextBuffer.new with
      lines := [['A','B'],['C']]
      cursor_x := 2
      cursor_x2 := some 0
      cursor_y2 := some 1 } (80, 12)
  have h1 := (h.1 (by decide)).1
  have h2 := (h.2.2.2 0 1 rfl rfl).2.1 rfl (by decide)
  refine ⟨?_, ?_, ?_⟩
  · rw [h1]; decide
  · rw [h2.1]; decide
  · rw [h2.2]

/-- Containment property of the scroll adjustment: with a positive editor
height, after `adjust_scroll` the viewport contains the primary cursor's
line when no secondary cursor exists; when a secondary cursor exists, its
line is contained (its adjustment is applied last and wins). -/
theorem adjust_scroll_spec (c : TextBuffer) (ts : Nat × Nat)
    (hh : 1 ≤ ts.2 - 2) :
    ((c.adjust_scroll ts).cursor_y2 = none →
      (c.adjust_scroll ts).offset_y ≤ (c.adjust_scroll ts).cursor_y ∧
      (c.adjust_scroll ts).cursor_y < (c.adjust_scroll ts).offset_y + (ts.2 - 2)) ∧
    (∀ y2, (c.adjust_scroll ts).cursor_y2 = some y2 →
      (c.adjust_scroll ts).offset_y ≤ y2 ∧
      y2 < (c.adjust_scroll ts).offset_y + (ts.2 - 2)) := by
  have hy2 : (c.adjust_scroll ts).cursor_y2 = c.cursor_y2 := rfl
  have hcy : (c.adjust_scroll ts).cursor_y = c.cursor_y := rfl
  rw [hy2, hcy]
  cases hc : c.cursor_y2 with
  | none =>
    have hoff : (c.adjust_scroll ts).offset_y =
        (if c.cursor_y < c.offset_y then c.cursor_y
         else if c.offset_y + (ts.2 - 2) ≤ c.cursor_y then
           c.cursor_y - (ts.2 - 2) + 1
         else c.offset_y) := by
      simp only [TextBuffer.adjust_scroll, hc]
    rw [hoff]
    constructor
    · intro _
      split_ifs <;> omega
    · intro y2 h2
      exact Option.noConfusion h2
  | some y2 =>
    have hoff : (c.adjust_scroll ts).offset_y =
        (if y2 < (if c.cursor_y < c.offset_y then c.cursor_y
            else if c.offset_y + (ts.2 - 2) ≤ c.cursor_y then
              c.cursor_y - (ts.2 - 2) + 1
            else c.offset_y) then y2
         else if (if c.cursor_y < c.offset_y then c.cursor_y
             else if c.offset_y + (ts.2 - 2) ≤ c.cursor_y then
               c.cursor_y - (ts.2 - 2) + 1
             else c.offset_y) + (ts.2 - 2) ≤ y2 then y2 - (ts.2 - 2) + 1
         else (if c.cursor_y < c.offset_y then c.cursor_y
            else if c.offset_y + (ts.2 - 2) ≤ c.cursor_y then
              c.cursor_y - (ts.2 - 2) + 1
            else c.offset_y)) := by
      simp only [TextBuffer.adjust_scroll, hc]
    rw [hoff]
    constructor
    · intro hnone
      exact Option.noConfusion hnone
    · intro y2q h2
      injection h2 with h2e
      subst h2e
      split_ifs <;> omega

/-- Concrete buffer for claim C7's counterexample: 12 empty lines,
primary cursor on line 10, secondary cursor on line 0, scroll offset 0. -/
def c7Buf : TextBuffer :=
  { TextBuffer.new with
    lines := List.replicate 12 []
    cursor_y := 10
    cursor_x2 := some 0
    cursor_y2 := some 0 }

/-- C7 counterexample: terminal height 5 gives a viewport of 3 rows.
Moving the primary cursor Down to line 11 first scrolls the offset to 9,
but the secondary cursor on line 0 then drags the offset back to 0 — the
primary cursor's line 11 is NOT inside `[offset, offset + height) = [0, 3)`
after the call, contradicting the claimed unconditional containment. -/
theorem C7_counterexample :
    (c7Buf.move_cursor Direction.Down (80, 5) false).cursor_y = 11 ∧
    (c7Buf.move_cursor Direction.Down (80, 5) false).offset_y = 0 ∧
    ¬ ((c7Buf.move_cursor Direction.Down (80, 5) false).cursor_y <
      (c7Buf.move_cursor Direction.Down (80, 5) false).offset_y + (5 - 2)) := by
  decide

/-- C7 (amended): after every `move_cursor` call with a positive editor
height (`terminal height ≥ 3`), the viewport contains the primary
cursor's line whenever no secondary cursor exists; when a secondary
cursor exists, the viewport contains the SECONDARY cursor's line — its
adjustment runs after the primary's and wins, so containment of the
primary's line is only best-effort. -/
theorem C7_scroll_containment (b : TextBuffer) (d : Direction)
    (ts : Nat × Nat) (sec : Bool) (hh : 1 ≤ ts.2 - 2) :
    ((b.move_cursor d ts sec).cursor_y2 = none →
      (b.move_cursor d ts sec).offset_y ≤ (b.move_cursor d ts sec).cursor_y ∧
      (b.move_cursor d ts sec).cursor_y <
        (b.move_cursor d ts sec).offset_y + (ts.2 - 2)) ∧
    (∀ y2, (b.move_cursor d ts sec).cursor_y2 = some y2 →
      (b.move_cursor d ts sec).offset_y ≤ y2 ∧
      y2 < (b.move_cursor d ts sec).offset_y + (ts.2 - 2)) :=
  adjust_scroll_spec (b.move_cursor_core d sec) ts hh

/-- Witness for C7: after the counterexample's own move (secondary cursor
on line 0), the final offset 0 does contain the secondary cursor's line:
`0 ≤ 0 < 0 + 3`. -/
theorem C7_scroll_containment_witness :
    (c7Buf.move_cursor Direction.Down (80, 5) false).offset_y ≤ 0 ∧
    0 < (c7Buf.move_cursor Direction.Down (80, 5) false).offset_y + (5 - 2) :=
  (C7_scroll_containment c7Buf Direction.Down (80, 5) false (by decide)).2
    0 (by decide)

end RNano
